import Mathlib

/-!
Verification of the worker execution pipeline of the inference server
(`src/proteus/workers/xmodel.cpp` and
`src/apps/mlcommons/src/system_under_test.cpp`).

The definitions below are a shallow embedding of the C++ sources: pure
computations become Lean functions, the stateful dispatch loop and the task
body pushed to the thread pool become functions producing explicit traces of
externally visible events, and out-of-range vector accesses (undefined
behavior in C++) are modelled with explicit defaults or dedicated outcome
constructors, as noted at each definition.
-/

namespace InferenceServer

/-- Element datatypes of `proteus::types::DataType` (only the members the
XModel worker mentions are distinguished; all others are carried by name). -/
inductive DataType where
  | UINT8
  | UINT32
  | other (s : String)
deriving DecidableEq, Repr

/-- A named tensor as it appears on a request's input list or declared output
list (`InferenceRequestInput` / the request's output entries); only the name
matters to the embedded code paths. -/
structure TensorMeta where
  name : String
deriving DecidableEq, Repr

instance : Inhabited TensorMeta := ⟨⟨""⟩⟩

/-- An `InferenceRequest` as seen by `XModel::doRun`: identifier, ordered
input tensors (`getInputs`), declared output tensors (`getOutputs`). The
completion callback is represented by the `Event.callback` trace events
emitted by `doRunTask` below. -/
structure InferenceRequest where
  id : String
  inputs : List TensorMeta
  outputs : List TensorMeta
deriving DecidableEq, Repr

/-- One output tensor of an `InferenceResponse`, as built by the inner loop of
`XModel::doRun` (xmodel.cpp:317-350): name, shape, datatype and the bytes
copied out of the output buffer. Bytes are modelled as natural numbers. -/
structure InferenceResponseOutput where
  name : String
  shape : List Nat
  datatype : DataType
  data : List Nat
deriving DecidableEq, Repr

/-- An `InferenceResponse`: identifier echoing the request's, model name, the
ordered output tensors added by `addOutput`. -/
structure InferenceResponse where
  id : String
  model : String
  outputs : List InferenceResponseOutput
deriving DecidableEq, Repr

/-- A buffer, reduced to its byte contents (`data()`). -/
structure Buffer where
  data : List Nat
deriving DecidableEq, Repr

instance : Inhabited Buffer := ⟨⟨[]⟩⟩

/-- A `Batch` as consumed by `XModel::doRun`: the ordered requests and the
checked-out input-side and output-side buffer sets (each set a vector of
buffers, one per model tensor). -/
structure Batch where
  requests : List InferenceRequest
  input_buffers : List (List Buffer)
  output_buffers : List (List Buffer)
deriving DecidableEq, Repr

/-- The fields of the `XModel` worker read by `doRun`
(xmodel.cpp:94-102): the backend kernel string discovered in `doInit`, the
output datatype, the per-request output byte size, and the shapes of the
runner's output tensors (`getRunner()->get_output_tensors()`). -/
structure XModelState where
  kernel_ : String
  output_type_ : DataType
  output_size_ : Nat
  runnerOutputShapes : List (List Nat)
deriving DecidableEq, Repr

/-- Model of `memcpy(dst, src + off, len)` on byte lists: the `len` bytes of
`src` starting at offset `off`. -/
def readBytes (src : List Nat) (off len : Nat) : List Nat :=
  (src.drop off).take len

/-- Model of one iteration of the inner output-building loop of
`XModel::doRun` (xmodel.cpp:317-350) for input index `i` of a request, with
running `tensor_count` value `tc`: the new shape copies the runner output
shape skipping its leading (batch) entry, the data is an `output_size_`-byte
`memcpy` at offset `tensor_count * output_size_` of `output_index`, and the
name falls back to the same-index input name when the declared output name is
empty. Out-of-range accesses (`outputs[i]`, C++ UB) are modelled by `getD`
with a default. -/
def buildOutput (w : XModelState) (output_index : List Nat)
    (req : InferenceRequest) (i tc : Nat) : InferenceResponseOutput :=
  let output_shape := w.runnerOutputShapes.getD 0 []
  let new_shape :=
    (List.range (output_shape.length - 1)).map (fun j => output_shape.getD (j + 1) 0)
  let output_name := (req.outputs.getD i default).name
  { name := if output_name = "" then (req.inputs.getD i default).name else output_name
    shape := new_shape
    datatype := w.output_type_
    data := readBytes output_index (tc * w.output_size_) w.output_size_ }

/-- Model of the per-request response assembly of `XModel::doRun`
(xmodel.cpp:286-290 for id and model, 311-350 for the outputs): one output is
built per entry of the request's input list, with `tensor_count` starting at
`tc` and incremented once per output. -/
def mkResponse (w : XModelState) (output_index : List Nat)
    (req : InferenceRequest) (tc : Nat) : InferenceResponse :=
  { id := req.id
    model := "xmodel"
    outputs :=
      (List.range req.inputs.length).map (fun i => buildOutput w output_index req i (tc + i)) }

/-- Model of the outer response loop of `XModel::doRun` (xmodel.cpp:310-357):
responses are built for the requests in batch order, threading the
`tensor_count` counter across requests. -/
def batchResponses (w : XModelState) (output_index : List Nat) :
    List InferenceRequest → Nat → List InferenceResponse
  | [], _ => []
  | req :: rest, tc =>
    mkResponse w output_index req tc ::
      batchResponses w output_index rest (tc + req.inputs.length)

theorem mkResponse_outputs_length (w : XModelState) (oi : List Nat)
    (req : InferenceRequest) (tc : Nat) :
    (mkResponse w oi req tc).outputs.length = req.inputs.length := by
  simp [mkResponse]

/-- C5: every output tensor added to a response has its shape set to the
runtime-reported output tensor shape with the leading batch dimension
removed: element `j` of the response shape equals element `j + 1` of the
runner's output shape, and the lengths differ by exactly one. -/
theorem response_shape_strips_batch_dim (w : XModelState) (oi : List Nat)
    (req : InferenceRequest) (tc k : Nat) (hk : k < (mkResponse w oi req tc).outputs.length)
    (j : Nat) (hj : j + 1 < (w.runnerOutputShapes.getD 0 []).length) :
    (((mkResponse w oi req tc).outputs.get ⟨k, hk⟩).shape.getD j 0 =
      (w.runnerOutputShapes.getD 0 []).getD (j + 1) 0) ∧
    ((mkResponse w oi req tc).outputs.get ⟨k, hk⟩).shape.length =
      (w.runnerOutputShapes.getD 0 []).length - 1 := by
  have hshape : ((mkResponse w oi req tc).outputs.get ⟨k, hk⟩).shape =
      (List.range ((w.runnerOutputShapes.getD 0 []).length - 1)).map
        (fun j => (w.runnerOutputShapes.getD 0 []).getD (j + 1) 0) := by
    simp [mkResponse, buildOutput]
  constructor
  · rw [hshape]
    have hj' : j < ((List.range ((w.runnerOutputShapes.getD 0 []).length - 1)).map
        (fun j => (w.runnerOutputShapes.getD 0 []).getD (j + 1) 0)).length := by
      simp only [List.length_map, List.length_range]
      omega
    rw [List.getD_eq_getElem _ _ hj']
    simp
  · rw [hshape]
    simp

/-- Witness for `response_shape_strips_batch_dim` at a concrete worker state
and request. -/
theorem response_shape_strips_batch_dim_witness :
    ((mkResponse ⟨"DPU", DataType.UINT8, 2, [[4, 7, 9]]⟩ [1, 2, 3, 4]
        ⟨"r", [⟨"in0"⟩], [⟨""⟩]⟩ 0).outputs.get ⟨0, by decide⟩).shape.getD 0 0 =
      (([[4, 7, 9]] : List (List Nat)).getD 0 []).getD 1 0 := by
  exact (response_shape_strips_batch_dim ⟨"DPU", DataType.UINT8, 2, [[4, 7, 9]]⟩
    [1, 2, 3, 4] ⟨"r", [⟨"in0"⟩], [⟨""⟩]⟩ 0 0 (by decide) 0 (by decide)).1

/-- C6: the name of the `k`-th output built for a request equals the name
declared at index `k` of the request's output list when that name is
non-empty, and otherwise equals the name of the request's input tensor at the
same index. -/
theorem output_name_fallback (w : XModelState) (oi : List Nat)
    (req : InferenceRequest) (tc k : Nat) (hk : k < (mkResponse w oi req tc).outputs.length)
    (ho : k < req.outputs.length) (hi : k < req.inputs.length) :
    ((mkResponse w oi req tc).outputs.get ⟨k, hk⟩).name =
      if (req.outputs.get ⟨k, ho⟩).name = "" then (req.inputs.get ⟨k, hi⟩).name
      else (req.outputs.get ⟨k, ho⟩).name := by
  simp only [mkResponse, List.get_eq_getElem, List.getElem_map, List.getElem_range,
    buildOutput]
  rw [List.getD_eq_getElem _ _ ho, List.getD_eq_getElem _ _ hi]

/-- Witness for `output_name_fallback`: an empty declared name falls back to
the input tensor's name at a concrete request. -/
theorem output_name_fallback_witness :
    ((mkResponse ⟨"DPU", DataType.UINT8, 2, [[4, 7]]⟩ []
        ⟨"r", [⟨"in0"⟩], [⟨""⟩]⟩ 0).outputs.get ⟨0, by decide⟩).name =
      if ((([⟨""⟩] : List TensorMeta)).get ⟨0, by decide⟩).name = ""
      then (([⟨"in0"⟩] : List TensorMeta).get ⟨0, by decide⟩).name
      else ((([⟨""⟩] : List TensorMeta)).get ⟨0, by decide⟩).name := by
  exact output_name_fallback ⟨"DPU", DataType.UINT8, 2, [[4, 7]]⟩ []
    ⟨"r", [⟨"in0"⟩], [⟨""⟩]⟩ 0 0 (by decide) (by decide) (by decide)

/-- Externally visible events of the task body pushed to the thread pool in
`XModel::doRun` (xmodel.cpp:242-362). Buffer synchronization and job
submission events carry the buffer-set index `i` of the loop over
`batch->input_buffers` (and the buffer index `j` within the set); `callback`
events carry the request's position in the batch and the response passed to
the callback; `returnBuffers` models the single call returning both checked
out buffer sets to the pool. -/
inductive Event where
  | sync_for_write (set buf : Nat)
  | execute_async (set : Nat)
  | wait (job : Nat)
  | sync_for_read (set buf : Nat)
  | callback (req : Nat) (resp : InferenceResponse)
  | returnBuffers
deriving DecidableEq, Repr

/-- A counted `for` loop producing the concatenation of its iterations'
event lists: `forLoop f i r` runs iterations `i, i+1, ..., i+r-1`. -/
def forLoop {α : Type} (f : Nat → List α) : Nat → Nat → List α
  | _, 0 => []
  | i, r + 1 => f i ++ forLoop f (i + 1) r

/-- One iteration of the submission loop of the task body
(xmodel.cpp:247-280) at buffer-set index `i`: the input buffers of that set
are synchronized for write unless the kernel is the special-cased `DPUCADF8H`
backend, then the set's job is submitted with `execute_async`. -/
def submitBody (w : XModelState) (batch : Batch) (i : Nat) : List Event :=
  (if w.kernel_ ≠ "DPUCADF8H" then
    (List.range ((batch.input_buffers.getD i []).length)).map
      (fun j => Event.sync_for_write i j)
  else []) ++ [Event.execute_async i]

/-- Model of the submission loop of the task body (xmodel.cpp:247-280), over
all buffer-set indices of the batch. -/
def submitLoop (w : XModelState) (batch : Batch) : List Event :=
  forLoop (submitBody w batch) 0 batch.input_buffers.length

/-- Model of the future-draining loop (xmodel.cpp:292-296): the futures queue
holds one job per buffer-set index, popped in FIFO order and waited on. -/
def waitLoop (batch : Batch) : List Event :=
  (List.range batch.input_buffers.length).map Event.wait

/-- Model of the output synchronization loop (xmodel.cpp:298-304): unless the
kernel is the special-cased `DPUCADF8H` backend, every tensor buffer gathered
into `outputs_ptrs_global` (the output buffers of set `i`, for each `i` of
the loop over `batch->input_buffers`) is synchronized for read. -/
def readSyncLoop (w : XModelState) (batch : Batch) : List Event :=
  if w.kernel_ ≠ "DPUCADF8H" then
    forLoop
      (fun i =>
        (List.range ((batch.output_buffers.getD i []).length)).map
          (Event.sync_for_read i))
      0 batch.input_buffers.length
  else []

/-- The `output_index` pointer of xmodel.cpp:308: the data of the first buffer
of the batch's first output buffer set. -/
def output_index (batch : Batch) : List Nat :=
  ((batch.output_buffers.getD 0 []).getD 0 default).data

/-- The callback invocations of the response loop (xmodel.cpp:311-357), in
order: the `k`-th built response is passed to the `k`-th request's callback. -/
def callbackEvents : List InferenceResponse → Nat → List Event
  | [], _ => []
  | r :: rest, k => Event.callback k r :: callbackEvents rest (k + 1)

/-- Model of the task body pushed to the thread pool in `XModel::doRun`
(xmodel.cpp:242-362), as the ordered trace of its externally visible events:
per-set input syncs and job submissions, FIFO waits on all jobs, output syncs,
per-request response construction and callback invocation in batch order, and
a final return of both buffer sets to the pool. -/
def doRunTask (w : XModelState) (batch : Batch) : List Event :=
  submitLoop w batch ++ waitLoop batch ++ readSyncLoop w batch ++
    callbackEvents (batchResponses w (output_index batch) batch.requests 0) 0 ++
    [Event.returnBuffers]

/-- The request position carried by a callback event. -/
def callbackIdx : Event → Option Nat
  | Event.callback k _ => some k
  | _ => none

/-- The response identifier carried by a callback event. -/
def callbackId : Event → Option String
  | Event.callback _ r => some r.id
  | _ => none

theorem forLoop_append {α : Type} (f : Nat → List α) (s a b : Nat) :
    forLoop f s (a + b) = forLoop f s a ++ forLoop f (s + a) b := by
  induction a generalizing s with
  | zero => simp [forLoop]
  | succ a ih =>
    have : a + 1 + b = (a + b) + 1 := by omega
    rw [this]
    simp only [forLoop]
    rw [ih (s + 1)]
    have : s + 1 + a = s + (a + 1) := by omega
    rw [this, List.append_assoc]

theorem mem_forLoop {α : Type} (f : Nat → List α) (s r : Nat) (e : α)
    (he : e ∈ forLoop f s r) : ∃ i, s ≤ i ∧ i < s + r ∧ e ∈ f i := by
  induction r generalizing s with
  | zero => simp [forLoop] at he
  | succ r ih =>
    simp only [forLoop, List.mem_append] at he
    rcases he with h | h
    · exact ⟨s, le_refl s, by omega, h⟩
    · obtain ⟨i, h1, h2, h3⟩ := ih (s + 1) h
      exact ⟨i, by omega, by omega, h3⟩

theorem filterMap_eq_nil_of_forall {α β : Type} (f : α → Option β) (l : List α)
    (h : ∀ e ∈ l, f e = none) : l.filterMap f = [] := by
  induction l with
  | nil => rfl
  | cons a t ih =>
    rw [List.filterMap_cons, h a (List.mem_cons_self a t)]
    exact ih (fun e he => h e (List.mem_cons_of_mem a he))

theorem submitLoop_no_callback (w : XModelState) (batch : Batch) (e : Event)
    (he : e ∈ submitLoop w batch) : callbackIdx e = none ∧ callbackId e = none := by
  obtain ⟨i, _, _, hf⟩ := mem_forLoop _ _ _ _ he
  simp only [submitBody, List.mem_append, List.mem_map] at hf
  rcases hf with h | h
  · split at h
    · obtain ⟨j, _, hj⟩ := List.mem_map.mp h
      subst hj
      exact ⟨rfl, rfl⟩
    · simp at h
  · simp only [List.mem_singleton] at h
    subst h
    exact ⟨rfl, rfl⟩

theorem waitLoop_no_callback (batch : Batch) (e : Event)
    (he : e ∈ waitLoop batch) : callbackIdx e = none ∧ callbackId e = none := by
  obtain ⟨j, _, hj⟩ := List.mem_map.mp he
  subst hj
  exact ⟨rfl, rfl⟩

theorem readSyncLoop_no_callback (w : XModelState) (batch : Batch) (e : Event)
    (he : e ∈ readSyncLoop w batch) : callbackIdx e = none ∧ callbackId e = none := by
  unfold readSyncLoop at he
  split at he
  · obtain ⟨i, _, _, hf⟩ := mem_forLoop _ _ _ _ he
    obtain ⟨j, _, hj⟩ := List.mem_map.mp hf
    subst hj
    exact ⟨rfl, rfl⟩
  · simp at he

theorem callbackEvents_filterMap_idx (rs : List InferenceResponse) (k : Nat) :
    (callbackEvents rs k).filterMap callbackIdx = List.range' k rs.length := by
  induction rs generalizing k with
  | nil => simp [callbackEvents]
  | cons r rest ih =>
    simp only [callbackEvents, List.filterMap_cons, callbackIdx, List.length_cons,
      List.range'_succ]
    rw [ih (k + 1)]

theorem callbackEvents_filterMap_id (rs : List InferenceResponse) (k : Nat) :
    (callbackEvents rs k).filterMap callbackId = rs.map InferenceResponse.id := by
  induction rs generalizing k with
  | nil => simp [callbackEvents]
  | cons r rest ih =>
    simp only [callbackEvents, List.filterMap_cons, callbackId, List.map_cons]
    rw [ih (k + 1)]

theorem batchResponses_map_id (w : XModelState) (oi : List Nat)
    (reqs : List InferenceRequest) (tc : Nat) :
    (batchResponses w oi reqs tc).map InferenceResponse.id =
      reqs.map InferenceRequest.id := by
  induction reqs generalizing tc with
  | nil => rfl
  | cons req rest ih =>
    simp only [batchResponses, List.map_cons, mkResponse]
    rw [ih]

theorem batchResponses_length (w : XModelState) (oi : List Nat)
    (reqs : List InferenceRequest) (tc : Nat) :
    (batchResponses w oi reqs tc).length = reqs.length := by
  have := batchResponses_map_id w oi reqs tc
  have h1 := congrArg List.length this
  simpa using h1

/-- C1: in the trace of a processed batch, the callback events carry exactly
the request positions `0, 1, ..., n-1` in that order (each request's callback
fires exactly once, in batch order) and the sequence of response identifiers
passed to the callbacks equals the sequence of request identifiers in batch
order. -/
theorem doRun_callbacks_once_in_order (w : XModelState) (batch : Batch) :
    (doRunTask w batch).filterMap callbackIdx = List.range batch.requests.length ∧
    (doRunTask w batch).filterMap callbackId =
      batch.requests.map InferenceRequest.id := by
  have hsub1 : (submitLoop w batch).filterMap callbackIdx = [] :=
    filterMap_eq_nil_of_forall _ _ (fun e he => (submitLoop_no_callback w batch e he).1)
  have hsub2 : (submitLoop w batch).filterMap callbackId = [] :=
    filterMap_eq_nil_of_forall _ _ (fun e he => (submitLoop_no_callback w batch e he).2)
  have hwait1 : (waitLoop batch).filterMap callbackIdx = [] :=
    filterMap_eq_nil_of_forall _ _ (fun e he => (waitLoop_no_callback batch e he).1)
  have hwait2 : (waitLoop batch).filterMap callbackId = [] :=
    filterMap_eq_nil_of_forall _ _ (fun e he => (waitLoop_no_callback batch e he).2)
  have hread1 : (readSyncLoop w batch).filterMap callbackIdx = [] :=
    filterMap_eq_nil_of_forall _ _ (fun e he => (readSyncLoop_no_callback w batch e he).1)
  have hread2 : (readSyncLoop w batch).filterMap callbackId = [] :=
    filterMap_eq_nil_of_forall _ _ (fun e he => (readSyncLoop_no_callback w batch e he).2)
  constructor
  · simp only [doRunTask, List.filterMap_append, hsub1, hwait1, hread1,
      callbackEvents_filterMap_idx, List.nil_append]
    simp [callbackIdx, batchResponses_length, List.range_eq_range']
  · simp only [doRunTask, List.filterMap_append, hsub2, hwait2, hread2,
      callbackEvents_filterMap_id, List.nil_append]
    simp [callbackId, batchResponses_map_id]

/-- Recognizer for the two buffer synchronization event kinds. -/
def isSync : Event → Bool
  | Event.sync_for_write _ _ => true
  | Event.sync_for_read _ _ => true
  | _ => false

theorem forLoop_split {α : Type} (f : Nat → List α) (m i : Nat) (h : i < m) :
    forLoop f 0 m = forLoop f 0 i ++ (f i ++ forLoop f (i + 1) (m - i - 1)) := by
  conv_lhs => rw [show m = i + ((m - i - 1) + 1) by omega]
  rw [forLoop_append]
  simp only [Nat.zero_add]
  rfl

theorem mem_forLoop_intro {α : Type} (f : Nat → List α) (e : α) :
    ∀ (r s i : Nat), s ≤ i → i < s + r → e ∈ f i → e ∈ forLoop f s r := by
  intro r
  induction r with
  | zero => intro s i h1 h2 _; omega
  | succ r ih =>
    intro s i h1 h2 he
    simp only [forLoop, List.mem_append]
    by_cases hsi : i = s
    · subst hsi
      exact Or.inl he
    · exact Or.inr (ih (s + 1) i (by omega) (by omega) he)

theorem mem_callbackEvents (rs : List InferenceResponse) (k : Nat) (e : Event)
    (he : e ∈ callbackEvents rs k) : ∃ i r, e = Event.callback i r := by
  induction rs generalizing k with
  | nil => simp [callbackEvents] at he
  | cons r rest ih =>
    simp only [callbackEvents, List.mem_cons] at he
    rcases he with h | h
    · exact ⟨k, r, h⟩
    · exact ih (k + 1) h

/-- C7: buffer synchronization in the task body. If the worker's kernel is the
special-cased `DPUCADF8H` backend, the trace contains no synchronization event
at all (both passes are skipped). Otherwise, for every buffer-set index `i`
and every input buffer `j` of that set, a `sync_for_write` event for that
buffer occurs strictly before the set's `execute_async` submission, and for
every output buffer of the batch a `sync_for_read` event occurs strictly
after every job's `wait`. -/
theorem submitBody_of_sync (w : XModelState) (batch : Batch) (i : Nat)
    (hker : w.kernel_ ≠ "DPUCADF8H") :
    submitBody w batch i =
      (List.range ((batch.input_buffers.getD i []).length)).map
        (fun j => Event.sync_for_write i j) ++ [Event.execute_async i] := by
  unfold submitBody
  rw [if_pos hker]

theorem sync_passes_iff_not_special_kernel (w : XModelState) (batch : Batch) :
    (w.kernel_ = "DPUCADF8H" → ∀ e ∈ doRunTask w batch, isSync e = false) ∧
    (w.kernel_ ≠ "DPUCADF8H" →
      (∀ i j, i < batch.input_buffers.length →
        j < (batch.input_buffers.getD i []).length →
        ∃ p q, doRunTask w batch = p ++ Event.execute_async i :: q ∧
          Event.sync_for_write i j ∈ p) ∧
      (∀ i j, i < batch.input_buffers.length →
        j < (batch.output_buffers.getD i []).length →
        ∃ p q, doRunTask w batch = p ++ Event.sync_for_read i j :: q ∧
          ∀ k, k < batch.input_buffers.length → Event.wait k ∈ p)) := by
  constructor
  · intro hker e he
    simp only [doRunTask, List.mem_append] at he
    rcases he with ((((h | h) | h) | h) | h)
    · obtain ⟨i, _, _, hf⟩ := mem_forLoop _ _ _ _ h
      simp only [submitBody] at hf
      rw [if_neg (by simp [hker])] at hf
      simp only [List.nil_append, List.mem_singleton] at hf
      subst hf
      rfl
    · obtain ⟨j, _, hj⟩ := List.mem_map.mp h
      subst hj
      rfl
    · unfold readSyncLoop at h
      rw [if_neg (by simp [hker])] at h
      simp at h
    · obtain ⟨i, r, hir⟩ := mem_callbackEvents _ _ _ h
      subst hir
      rfl
    · simp only [List.mem_singleton] at h
      subst h
      rfl
  · intro hker
    constructor
    · intro i j hi hj
      have hsplit := forLoop_split (submitBody w batch) batch.input_buffers.length i hi
      rw [submitBody_of_sync w batch i hker] at hsplit
      refine ⟨forLoop (submitBody w batch) 0 i ++
          (List.range ((batch.input_buffers.getD i []).length)).map
            (fun j => Event.sync_for_write i j),
        forLoop (submitBody w batch) (i + 1) (batch.input_buffers.length - i - 1) ++
          (waitLoop batch ++ readSyncLoop w batch ++
            callbackEvents (batchResponses w (output_index batch) batch.requests 0) 0 ++
            [Event.returnBuffers]), ?_, ?_⟩
      · unfold doRunTask submitLoop
        rw [hsplit]
        simp [List.append_assoc]
      · apply List.mem_append_right
        exact List.mem_map.mpr ⟨j, List.mem_range.mpr hj, rfl⟩
    · intro i j hi hj
      have hmem : Event.sync_for_read i j ∈ readSyncLoop w batch := by
        unfold readSyncLoop
        rw [if_pos hker]
        apply mem_forLoop_intro _ _ batch.input_buffers.length 0 i (by omega) (by omega)
        exact List.mem_map.mpr ⟨j, List.mem_range.mpr hj, rfl⟩
      obtain ⟨s, t, hst⟩ := List.append_of_mem hmem
      refine ⟨submitLoop w batch ++ waitLoop batch ++ s,
        t ++ (callbackEvents (batchResponses w (output_index batch) batch.requests 0) 0 ++
          [Event.returnBuffers]), ?_, ?_⟩
      · unfold doRunTask
        rw [hst]
        simp [List.append_assoc]
      · intro k hk
        apply List.mem_append_left
        apply List.mem_append_right
        exact List.mem_map.mpr ⟨k, List.mem_range.mpr hk, rfl⟩

/-- Witness for `sync_passes_iff_not_special_kernel`: on a worker whose kernel
is not the special-cased backend and a batch with one single-buffer set per
side, the input sync precedes the submission. -/
theorem sync_passes_witness :
    ∃ p q, doRunTask ⟨"DPUCZDX8G", DataType.UINT8, 1, [[2, 3]]⟩
        ⟨[⟨"r", [⟨"in0"⟩], [⟨""⟩]⟩], [[⟨[0]⟩]], [[⟨[5]⟩]]⟩ =
      p ++ Event.execute_async 0 :: q ∧ Event.sync_for_write 0 0 ∈ p := by
  exact ((sync_passes_iff_not_special_kernel ⟨"DPUCZDX8G", DataType.UINT8, 1, [[2, 3]]⟩
      ⟨[⟨"r", [⟨"in0"⟩], [⟨""⟩]⟩], [[⟨[0]⟩]], [[⟨[5]⟩]]⟩).2
    (by decide)).1 0 0 (by decide) (by decide)

/-- The output tensors of a list of responses in emission order: across the
requests of the batch and, within a request, across its inputs. -/
def allOutputs (rs : List InferenceResponse) : List InferenceResponseOutput :=
  (rs.map InferenceResponse.outputs).flatten

theorem allOutputs_cons (r : InferenceResponse) (rs : List InferenceResponse) :
    allOutputs (r :: rs) = r.outputs ++ allOutputs rs := by
  simp [allOutputs]

theorem allOutputs_data (w : XModelState) (oi : List Nat)
    (reqs : List InferenceRequest) (tc n : Nat)
    (hn : n < (allOutputs (batchResponses w oi reqs tc)).length) :
    ((allOutputs (batchResponses w oi reqs tc)).get ⟨n, hn⟩).data =
      readBytes oi ((tc + n) * w.output_size_) w.output_size_ := by
  induction reqs generalizing tc n with
  | nil => simp [allOutputs, batchResponses] at hn
  | cons req rest ih =>
    have hsplit : allOutputs (batchResponses w oi (req :: rest) tc) =
        (mkResponse w oi req tc).outputs ++
          allOutputs (batchResponses w oi rest (tc + req.inputs.length)) := by
      rw [batchResponses, allOutputs_cons]
    by_cases hlt : n < (mkResponse w oi req tc).outputs.length
    · have : ((allOutputs (batchResponses w oi (req :: rest) tc)).get ⟨n, hn⟩) =
          (mkResponse w oi req tc).outputs.get ⟨n, hlt⟩ := by
        simp only [List.get_eq_getElem]
        rw [List.getElem_of_eq hsplit, List.getElem_append_left]
      rw [this]
      have hlt' : n < req.inputs.length := by
        simpa [mkResponse_outputs_length] using hlt
      simp only [mkResponse, List.get_eq_getElem, List.getElem_map, List.getElem_range]
      rfl
    · have hlen : (mkResponse w oi req tc).outputs.length ≤ n := by omega
      have hn2 : n - (mkResponse w oi req tc).outputs.length <
          (allOutputs (batchResponses w oi rest (tc + req.inputs.length))).length := by
        have hx := hn
        rw [hsplit, List.length_append] at hx
        omega
      have : ((allOutputs (batchResponses w oi (req :: rest) tc)).get ⟨n, hn⟩) =
          (allOutputs (batchResponses w oi rest (tc + req.inputs.length))).get
            ⟨n - (mkResponse w oi req tc).outputs.length, hn2⟩ := by
        simp only [List.get_eq_getElem]
        rw [List.getElem_of_eq hsplit, List.getElem_append_right hlen]
      rw [this, ih]
      have harith : tc + req.inputs.length + (n - (mkResponse w oi req tc).outputs.length) =
          tc + n := by
        rw [mkResponse_outputs_length] at hlen ⊢
        omega
      rw [harith]

/-- C10: during response construction, the `n`-th output tensor emitted for
the batch (counting across requests and their inputs in order) carries the
`output_size_`-byte region at byte offset `n * output_size_` of the
`output_index` pointer, which is the data of the first buffer of the batch's
first output buffer set; and response construction reads no other buffer:
any batch with the same requests and the same first buffer of the first
output buffer set yields identical responses. -/
theorem outputs_copied_from_first_buffer_only (w : XModelState) (batch : Batch) :
    (∀ n (hn : n <
        (allOutputs (batchResponses w (output_index batch) batch.requests 0)).length),
      ((allOutputs (batchResponses w (output_index batch) batch.requests 0)).get
          ⟨n, hn⟩).data =
        readBytes (output_index batch) (n * w.output_size_) w.output_size_) ∧
    (∀ batch2 : Batch, batch2.requests = batch.requests →
      (batch2.output_buffers.getD 0 []).getD 0 default =
        (batch.output_buffers.getD 0 []).getD 0 default →
      batchResponses w (output_index batch2) batch2.requests 0 =
        batchResponses w (output_index batch) batch.requests 0) := by
  constructor
  · intro n hn
    have := allOutputs_data w (output_index batch) batch.requests 0 n hn
    simpa using this
  · intro batch2 hreq hbuf
    unfold output_index
    rw [hreq, hbuf]

/-- Witness for `outputs_copied_from_first_buffer_only` at a one-request
batch: the single output tensor's data is the first `output_size_` bytes of
the first buffer of the first output set. -/
theorem outputs_copied_witness :
    ((allOutputs (batchResponses ⟨"DPU", DataType.UINT8, 2, [[1, 3]]⟩
        (output_index ⟨[⟨"r", [⟨"a"⟩], [⟨""⟩]⟩], [[⟨[0, 0]⟩]], [[⟨[9, 8, 7, 6]⟩]]⟩)
        [⟨"r", [⟨"a"⟩], [⟨""⟩]⟩] 0)).get ⟨0, by decide⟩).data =
      readBytes (output_index ⟨[⟨"r", [⟨"a"⟩], [⟨""⟩]⟩], [[⟨[0, 0]⟩]], [[⟨[9, 8, 7, 6]⟩]]⟩)
        (0 * 2) 2 := by
  exact (outputs_copied_from_first_buffer_only ⟨"DPU", DataType.UINT8, 2, [[1, 3]]⟩
    ⟨[⟨"r", [⟨"a"⟩], [⟨""⟩]⟩], [[⟨[0, 0]⟩]], [[⟨[9, 8, 7, 6]⟩]]⟩).1 0 (by decide)

/-- A Buffer Pool (one side) as bookkeeping state: the FIFO queue of
buffer-set identifiers still in the pool, and the sets currently checked out,
each tagged with the identifier of the in-flight batch holding it. -/
structure PoolState where
  queued : List Nat
  checkedOut : List (Nat × Nat)
deriving DecidableEq, Repr

/-- Modelled from the spec: the transitions of the Buffer Pool contract
(spec 4.2). The batcher that performs `checkout` upstream of the worker is
not among the shown sources; `ret` models the re-enqueue performed by the
`returnBuffers` call of xmodel.cpp:358. `checkout` removes the front set of
the queue and hands it to one in-flight batch; `ret` moves one checked-out
set back to the queue. -/
inductive PoolStep : PoolState → PoolState → Prop
  | checkout (sid : Nat) (rest : List Nat) (co : List (Nat × Nat)) (bid : Nat) :
      PoolStep ⟨sid :: rest, co⟩ ⟨rest, co ++ [(sid, bid)]⟩
  | ret (queued : List Nat) (pre post : List (Nat × Nat)) (sid bid : Nat) :
      PoolStep ⟨queued, pre ++ (sid, bid) :: post⟩ ⟨queued ++ [sid], pre ++ post⟩

/-- The pool state right after `doAllocate` enqueues `n` fresh sets
(xmodel.cpp:181-202): all `n` identifiers queued in order, none checked
out. -/
def initPool (n : Nat) : PoolState := ⟨List.range n, []⟩

/-- States reachable from the freshly allocated pool by checkout and return
steps. -/
def PoolReachable (n : Nat) (s : PoolState) : Prop :=
  Relation.ReflTransGen PoolStep (initPool n) s

theorem poolStep_perm {s1 s2 : PoolState} (h : PoolStep s1 s2) :
    List.Perm (s2.queued ++ s2.checkedOut.map Prod.fst)
      (s1.queued ++ s1.checkedOut.map Prod.fst) := by
  cases h with
  | checkout sid rest co bid =>
    simp only [List.map_append, List.map_cons, List.map_nil]
    have h1 : rest ++ (List.map Prod.fst co ++ [sid]) =
        (rest ++ List.map Prod.fst co) ++ [sid] := by
      rw [List.append_assoc]
    rw [h1, List.cons_append]
    exact List.perm_append_singleton _ _
  | ret queued pre post sid bid =>
    simp only [List.map_append, List.map_cons]
    have h1 : (queued ++ [sid]) ++ (List.map Prod.fst pre ++ List.map Prod.fst post) =
        queued ++ (sid :: (List.map Prod.fst pre ++ List.map Prod.fst post)) := by
      rw [List.append_assoc, List.singleton_append]
    rw [h1]
    exact List.Perm.append_left queued List.perm_middle.symm

theorem poolReachable_perm (n : Nat) (s : PoolState) (h : PoolReachable n s) :
    List.Perm (s.queued ++ s.checkedOut.map Prod.fst) (List.range n) := by
  induction h with
  | refl =>
    simp only [initPool, List.map_nil, List.append_nil]
    exact List.Perm.refl _
  | tail hab hbc ih => exact (poolStep_perm hbc).trans ih

theorem submitLoop_no_return (w : XModelState) (batch : Batch)
    (h : Event.returnBuffers ∈ submitLoop w batch) : False := by
  obtain ⟨i, _, _, hf⟩ := mem_forLoop _ _ _ _ h
  simp only [submitBody, List.mem_append, List.mem_map] at hf
  rcases hf with hf | hf
  · split at hf
    · obtain ⟨j, _, hj⟩ := List.mem_map.mp hf
      cases hj
    · simp at hf
  · simp at hf

theorem waitLoop_no_return (batch : Batch)
    (h : Event.returnBuffers ∈ waitLoop batch) : False := by
  obtain ⟨j, _, hj⟩ := List.mem_map.mp h
  cases hj

theorem readSyncLoop_no_return (w : XModelState) (batch : Batch)
    (h : Event.returnBuffers ∈ readSyncLoop w batch) : False := by
  unfold readSyncLoop at h
  split at h
  · obtain ⟨i, _, _, hf⟩ := mem_forLoop _ _ _ _ h
    obtain ⟨j, _, hj⟩ := List.mem_map.mp hf
    cases hj
  · simp at h

theorem callbackEvents_no_return (rs : List InferenceResponse) (k : Nat)
    (h : Event.returnBuffers ∈ callbackEvents rs k) : False := by
  obtain ⟨i, r, hir⟩ := mem_callbackEvents rs k _ h
  cases hir

/-- C2: the Buffer Pool partition invariant and the worker's return
discipline. In every pool state reachable from the freshly allocated pool,
the number of queued plus checked-out sets equals the allocated total `n`;
each allocated identifier occurs exactly once across the queue and the
checked-out list (so a set is either pool-queued or checked out to exactly
one in-flight batch, never both, never neither) and no foreign identifier
occurs at all. Moreover the task trace of every processed batch contains
exactly one `returnBuffers` event (returning both its sets), and it comes
after every callback of the batch. -/
theorem pool_partition_and_return_after_callbacks (n : Nat) (s : PoolState)
    (h : PoolReachable n s) (w : XModelState) (batch : Batch) :
    (s.queued.length + s.checkedOut.length = n) ∧
    (∀ sid, sid < n →
      s.queued.count sid + s.checkedOut.countP (fun p => p.1 == sid) = 1) ∧
    (∀ sid, n ≤ sid →
      s.queued.count sid + s.checkedOut.countP (fun p => p.1 == sid) = 0) ∧
    ((doRunTask w batch).count Event.returnBuffers = 1) ∧
    (∃ p, doRunTask w batch = p ++ [Event.returnBuffers] ∧
      ∀ k r, Event.callback k r ∈ doRunTask w batch → Event.callback k r ∈ p) := by
  have hperm := poolReachable_perm n s h
  have hcount : ∀ sid,
      s.queued.count sid + s.checkedOut.countP (fun p => p.1 == sid) =
        (List.range n).count sid := by
    intro sid
    have h1 := hperm.count_eq sid
    rw [List.count_append] at h1
    rw [← h1]
    congr 1
    rw [List.count_eq_countP, List.countP_map]
    rfl
  refine ⟨?_, ?_, ?_, ?_, ?_⟩
  · have := hperm.length_eq
    simpa using this
  · intro sid hsid
    rw [hcount sid, List.count_eq_of_nodup (List.nodup_range n)]
    simp [hsid]
  · intro sid hsid
    rw [hcount sid, List.count_eq_of_nodup (List.nodup_range n)]
    simp
    omega
  · unfold doRunTask
    simp only [List.count_append]
    rw [List.count_eq_zero.mpr (fun hmem => submitLoop_no_return w batch hmem),
      List.count_eq_zero.mpr (fun hmem => waitLoop_no_return batch hmem),
      List.count_eq_zero.mpr (fun hmem => readSyncLoop_no_return w batch hmem),
      List.count_eq_zero.mpr (fun hmem => callbackEvents_no_return _ _ hmem)]
    rfl
  · refine ⟨submitLoop w batch ++ waitLoop batch ++ readSyncLoop w batch ++
      callbackEvents (batchResponses w (output_index batch) batch.requests 0) 0, ?_, ?_⟩
    · unfold doRunTask
      simp [List.append_assoc]
    · intro k r hmem
      unfold doRunTask at hmem
      simp only [List.mem_append, List.mem_singleton] at hmem
      rcases hmem with ((((hm | hm) | hm) | hm) | hm)
      · exact List.mem_append_left _ (List.mem_append_left _ (List.mem_append_left _ hm))
      · exact List.mem_append_left _ (List.mem_append_left _ (List.mem_append_right _ hm))
      · exact List.mem_append_left _ (List.mem_append_right _ hm)
      · exact List.mem_append_right _ hm
      · cases hm

/-- Witness for `pool_partition_and_return_after_callbacks`: a pool of two
sets after one checkout satisfies the partition counts. -/
theorem pool_partition_witness :
    (PoolState.mk [1] [(0, 7)]).queued.length +
      (PoolState.mk [1] [(0, 7)]).checkedOut.length = 2 := by
  exact (pool_partition_and_return_after_callbacks 2 ⟨[1], [(0, 7)]⟩
    (Relation.ReflTransGen.single (PoolStep.checkout 0 [1] [] 7))
    ⟨"DPU", DataType.UINT8, 1, [[1]]⟩ ⟨[], [], []⟩).1

/-- A tensor as described by the Accelerator Runtime (`xir::Tensor`): name,
shape and element datatype. -/
structure TensorInfo where
  name : String
  shape : List Nat
  data_type : DataType
deriving DecidableEq, Repr

/-- The tensor lists reported by the runner
(`vart::Runner::get_input_tensors` / `get_output_tensors`). -/
structure Runner where
  input_tensors : List TensorInfo
  output_tensors : List TensorInfo
deriving DecidableEq, Repr

/-- The two pool queues owned by the worker (`input_buffers_` and
`output_buffers_`), holding buffer sets; each allocated buffer is
represented by the tensor description it was sized for
(`VartTensorBuffer(name, shape, type)`). -/
structure WorkerQueues where
  input_buffers : List (List TensorInfo)
  output_buffers : List (List TensorInfo)
deriving DecidableEq, Repr

/-- Model of `XModel::doAllocate` (xmodel.cpp:176-204). `kNumBufferAuto` is
the auto sentinel declared in the worker base header (not among the shown
sources), passed as a parameter; the C++ code compares `static_cast<int>(num)`
against it. The function allocates `num` (or the default `kBufferNum = 10`
when `num` is the auto sentinel) buffer sets on each side — each input set
holding one `VartTensorBuffer` per runner input tensor, each output set one
per runner output tensor — enqueues them into the respective pool queue, and
returns the allocated count. -/
def doAllocate (kNumBufferAuto : Int) (runner : Runner) (st : WorkerQueues)
    (num : Nat) : WorkerQueues × Nat :=
  let kBufferNum : Nat := 10
  let buffer_num := if (num : Int) = kNumBufferAuto then kBufferNum else num
  let inputSet :=
    runner.input_tensors.map (fun t => TensorInfo.mk t.name t.shape t.data_type)
  let outputSet :=
    runner.output_tensors.map (fun t => TensorInfo.mk t.name t.shape t.data_type)
  (⟨st.input_buffers ++ List.replicate buffer_num inputSet,
    st.output_buffers ++ List.replicate buffer_num outputSet⟩, buffer_num)

/-- C8: `doAllocate` enqueues exactly the returned count of buffer sets into
the input-side queue and exactly the same count into the output-side queue,
and that count is the requested `num` — or the fixed default 10 when `num`
is the auto sentinel. -/
theorem doAllocate_counts (kNumBufferAuto : Int) (runner : Runner)
    (st : WorkerQueues) (num : Nat) :
    ((doAllocate kNumBufferAuto runner st num).1.input_buffers.length =
      st.input_buffers.length + (doAllocate kNumBufferAuto runner st num).2) ∧
    ((doAllocate kNumBufferAuto runner st num).1.output_buffers.length =
      st.output_buffers.length + (doAllocate kNumBufferAuto runner st num).2) ∧
    ((doAllocate kNumBufferAuto runner st num).2 =
      if (num : Int) = kNumBufferAuto then 10 else num) := by
  unfold doAllocate
  by_cases hauto : (num : Int) = kNumBufferAuto <;> simp [hauto]

/-- A subgraph of the deserialized artifact (`xir::Subgraph`) with the
attributes `XModel::doInit` reads: the `device` attribute (modelled as
present; `xir` raises on a missing attribute), the optional
`dpu_fingerprint` attribute, and the `kernel` attribute. -/
structure Subgraph where
  device : String
  dpu_fingerprint : Option Nat
  kernel : String
deriving DecidableEq, Repr

/-- A deserialized artifact (`xir::Graph`), reduced to the topologically
sorted children of its root subgraph. -/
structure Graph where
  subgraphs : List Subgraph
deriving DecidableEq, Repr

/-- The request parameters `doInit` reads (`RequestParameters`): the optional
`max_buffer_num` and `xmodel` entries. -/
structure RequestParams where
  max_buffer_num : Option Int
  xmodel : Option String
deriving DecidableEq, Repr

/-- The worker fields computed by `doInit`. -/
structure InitState where
  max_buffer_num_ : Int
  kernel_ : String
  input_size_ : Nat
  batch_size_ : Nat
  output_size_ : Nat
deriving DecidableEq, Repr

/-- Outcome of initialization: `fatal` models a C++ exception escaping
`doInit` (worker startup aborts and the error is surfaced to the loader);
`undefinedBehavior` models an out-of-range `std::vector` access or a null
`getenv` result fed to `std::string`, which aborts nothing and surfaces
nothing. -/
inductive InitResult where
  | fatal (msg : String)
  | undefinedBehavior
  | ok (st : InitState)
deriving DecidableEq, Repr

/-- Model of `XModel::doInit` (xmodel.cpp:113-174). The environment and the
Accelerator Runtime are passed as parameters: `getenvRoot` is
`getenv("AKS_XMODEL_ROOT")` (a null result makes the default-path
construction UB), `deserialize` is `xir::Graph::deserialize` with `none`
modelling the locate/parse exception, `expandEnv` is
`autoExpandEnvironmentVariables`, `targetType` maps a DPU fingerprint to the
target's type string, and `create_runner` yields the runner's tensor lists
for the chosen subgraph. The accesses `dpu_graphs[0]`, `input_tensors[0]`,
`output_tensors[0]` and `input_shape[0]` are `std::vector` reads with no
bounds check, modelled as `undefinedBehavior` when out of range. -/
def doInit (getenvRoot : Option String) (deserialize : String → Option Graph)
    (expandEnv : String → String) (targetType : Nat → String)
    (create_runner : Subgraph → Runner) (parameters : RequestParams) : InitResult :=
  match getenvRoot with
  | none => InitResult.undefinedBehavior
  | some root =>
    let kMaxBufferNum : Int := 50
    let kPath := root ++ "/artifacts/u200_u250/resnet_v1_50_tf/resnet_v1_50_tf.xmodel"
    let max_buffer_num :=
      match parameters.max_buffer_num with
      | some v => v
      | none => kMaxBufferNum
    let path :=
      match parameters.xmodel with
      | some p => p
      | none => kPath
    match deserialize (expandEnv path) with
    | none => InitResult.fatal "deserialize"
    | some graph =>
      let dpu_graphs := graph.subgraphs.filter (fun c => c.device == "DPU")
      match dpu_graphs.head? with
      | none => InitResult.undefinedBehavior
      | some subgraph =>
        let kernel :=
          match subgraph.dpu_fingerprint with
          | some fingerprint => targetType fingerprint
          | none => subgraph.kernel
        let runner := create_runner subgraph
        match runner.input_tensors.head?, runner.output_tensors.head? with
        | some input0, some output0 =>
          match input0.shape.head? with
          | none => InitResult.undefinedBehavior
          | some batch_size =>
            let input_size := (input0.shape.drop 1).foldl (fun a b => a * b) 1
            let output_size := (output0.shape.drop 1).foldl (fun a b => a * b) 1
            InitResult.ok ⟨max_buffer_num, kernel, input_size, batch_size, output_size⟩
        | _, _ => InitResult.undefinedBehavior

/-- C3: evaluation of `doInit` at an artifact that deserializes successfully
but yields zero usable compute subgraphs (no subgraph whose `device`
attribute is `DPU`). The code then indexes `dpu_graphs[0]` on an empty
vector — undefined behavior, not a fatal error surfaced to the loader — so
startup does not abort with a surfaced error in this case, while a failing
`deserialize` does surface fatally. -/
theorem doInit_zero_dpu_subgraphs_is_ub :
    (doInit (some "/opt/aks") (fun _ => some ⟨[⟨"CPU", none, "cpu"⟩]⟩) id
        (fun _ => "DPUCADF8H") (fun _ => ⟨[], []⟩) ⟨none, none⟩ =
      InitResult.undefinedBehavior) ∧
    (doInit (some "/opt/aks") (fun _ => none) id
        (fun _ => "DPUCADF8H") (fun _ => ⟨[], []⟩) ⟨none, none⟩ =
      InitResult.fatal "deserialize") := by
  exact ⟨rfl, rfl⟩

/-- Events of the Batch-Queue consumer loop of `XModel::doRun`
(xmodel.cpp:223-363): a backpressure sleep of the given duration in
milliseconds, or the submission of a batch to the worker's thread pool. -/
inductive RunEvent where
  | sleep_for (ms : Nat)
  | push (batch : Batch)
deriving DecidableEq, Repr

/-- Model of the consumer loop of `XModel::doRun` (xmodel.cpp:223-363) as a
trace of sleeps and submissions. `threads` is the thread pool size set in
`doAcquire` (`max_pool_size = pool_.size() * 4`); the `Int` argument is the
atomic in-flight counter `pool_size`. Each queue entry pairs the dequeued
value (`none` is the shutdown sentinel, which stops the loop) with the
number of `pool_size--` decrements performed by concurrently completing
tasks since the previous iteration. Per iteration the loop increments the
counter, sleeps 10 ms when the counter exceeds `max_pool_size`, and then
always pushes the batch to the pool. -/
def runLoop (threads : Nat) : Int → List (Option Batch × Nat) → List RunEvent
  | _, [] => []
  | _, (none, _) :: _ => []
  | pool_size, (some batch, decs) :: rest =>
    let ps := pool_size - decs + 1
    (if ps > (threads : Int) * 4 then [RunEvent.sleep_for 10] else []) ++
      (RunEvent.push batch :: runLoop threads ps rest)

/-- The batch submitted by a push event. -/
def pushedBatch : RunEvent → Option Batch
  | RunEvent.push b => some b
  | _ => none

/-- The batches dequeued before the shutdown sentinel, in order. -/
def dequeuedBatches : List (Option Batch × Nat) → List Batch
  | [] => []
  | (none, _) :: _ => []
  | (some b, _) :: rest => b :: dequeuedBatches rest

theorem runLoop_pushes (threads : Nat) (c : Int)
    (entries : List (Option Batch × Nat)) :
    (runLoop threads c entries).filterMap pushedBatch = dequeuedBatches entries := by
  induction entries generalizing c with
  | nil => rfl
  | cons e rest ih =>
    obtain ⟨ob, decs⟩ := e
    cases ob with
    | none => rfl
    | some b =>
      simp only [runLoop, dequeuedBatches]
      by_cases hc : c - decs + 1 > (threads : Int) * 4
      · rw [if_pos hc]
        simp only [List.singleton_append, List.filterMap_cons, pushedBatch]
        rw [ih]
      · rw [if_neg hc]
        simp only [List.nil_append, List.filterMap_cons, pushedBatch]
        rw [ih]

theorem runLoop_sleep_followed (threads : Nat) (c : Int)
    (entries : List (Option Batch × Nat)) (p : List RunEvent) (d : Nat)
    (q : List RunEvent)
    (h : runLoop threads c entries = p ++ RunEvent.sleep_for d :: q) :
    d = 10 ∧ ∃ b q2, q = RunEvent.push b :: q2 := by
  induction entries generalizing c p with
  | nil => simp [runLoop] at h
  | cons e rest ih =>
    obtain ⟨ob, decs⟩ := e
    cases ob with
    | none => simp [runLoop] at h
    | some b =>
      simp only [runLoop] at h
      by_cases hc : c - decs + 1 > (threads : Int) * 4
      · rw [if_pos hc] at h
        simp only [List.singleton_append] at h
        cases p with
        | nil =>
          simp only [List.nil_append, List.cons.injEq] at h
          obtain ⟨h1, h2⟩ := h
          exact ⟨by injection h1 with h1x; exact h1x.symm, b, _, h2.symm⟩
        | cons x p2 =>
          simp only [List.cons_append, List.cons.injEq] at h
          obtain ⟨hx, h2⟩ := h
          cases p2 with
          | nil =>
            simp only [List.nil_append, List.cons.injEq] at h2
            obtain ⟨hpush, _⟩ := h2
            exact absurd hpush (by intro hcon; cases hcon)
          | cons y p3 =>
            simp only [List.cons_append, List.cons.injEq] at h2
            exact ih (c - decs + 1) p3 h2.2
      · rw [if_neg hc] at h
        simp only [List.nil_append] at h
        cases p with
        | nil =>
          simp only [List.nil_append, List.cons.injEq] at h
          exact absurd h.1 (by intro hcon; cases hcon)
        | cons x p2 =>
          simp only [List.cons_append, List.cons.injEq] at h
          exact ih (c - decs + 1) p2 h.2

/-- C4: backpressure in the consumer loop. Every dequeued batch before the
shutdown sentinel is submitted to the pool, in dequeue order — no batch is
ever rejected or dropped; every sleep event in the trace lasts the fixed
10 ms and is immediately followed by the pending batch's submission; and for
the batch at the head of the queue, the sleep happens exactly when the
incremented in-flight counter exceeds four times the pool size. -/
theorem backpressure_sleeps_and_still_submits (threads : Nat) (c : Int)
    (entries : List (Option Batch × Nat)) :
    ((runLoop threads c entries).filterMap pushedBatch = dequeuedBatches entries) ∧
    (∀ p d q, runLoop threads c entries = p ++ RunEvent.sleep_for d :: q →
      d = 10 ∧ ∃ b q2, q = RunEvent.push b :: q2) ∧
    (∀ batch decs rest, entries = (some batch, decs) :: rest →
      (c - decs + 1 > (threads : Int) * 4 ↔
        runLoop threads c entries = RunEvent.sleep_for 10 :: RunEvent.push batch ::
          runLoop threads (c - decs + 1) rest)) := by
  refine ⟨runLoop_pushes threads c entries, ?_, ?_⟩
  · intro p d q h
    exact runLoop_sleep_followed threads c entries p d q h
  · intro batch decs rest hent
    subst hent
    constructor
    · intro hc
      simp only [runLoop]
      rw [if_pos hc]
      rfl
    · intro htr
      by_contra hc
      simp only [runLoop] at htr
      rw [if_neg hc] at htr
      simp only [List.nil_append, List.cons.injEq] at htr
      exact absurd htr.1 (by intro hcon; cases hcon)

/-- Witness for `backpressure_sleeps_and_still_submits`: with an empty
thread pool and counter 0, the first dequeued batch triggers the 10 ms sleep
and is still pushed afterwards. -/
theorem backpressure_witness :
    runLoop 0 0 [(some (Batch.mk [] [] []), 0)] =
      RunEvent.sleep_for 10 :: RunEvent.push (Batch.mk [] [] []) ::
        runLoop 0 (0 - 0 + 1) [] := by
  exact ((backpressure_sleeps_and_still_submits 0 0
      [(some (Batch.mk [] [] []), 0)]).2.2 (Batch.mk [] [] []) 0 [] rfl).mp
    (by decide)

/-- One output tensor of a resolved response in the Completion Adapter: the
opaque data pointer reported by `getData()` (modelled as a number, as the
code itself casts it to `uintptr_t`) and the byte size from `getSize()`. -/
structure QueryOutput where
  data : Nat
  size : Nat
deriving DecidableEq, Repr

instance : Inhabited QueryOutput := ⟨⟨0, 0⟩⟩

/-- The value of a resolved `InferenceResponseFuture` in
`SystemUnderTest::FinishQuery`: error flag (`isError`), identifier string
(`getID`), output tensors (`getOutputs`). -/
structure ClientResponse where
  isError : Bool
  id : String
  outputs : List QueryOutput
deriving DecidableEq, Repr

/-- Caller-visible effects of the drain loop of `SystemUnderTest::FinishQuery`
(system_under_test.cpp:55-81): an error log line, a
`mlperf::QuerySamplesComplete` report carrying (identifier, data pointer,
byte size), or an exception escaping `std::stoul` on an unparseable
identifier (which would terminate the process; it cannot occur for the ids
assigned by `IssueQuery`, which are `std::to_string` of numeric sample
ids). -/
inductive SutEvent where
  | logError
  | complete (id : Nat) (data : Nat) (size : Nat)
  | stoulFailure
deriving DecidableEq, Repr

/-- Decimal digit test on a character's code point. -/
def isDigitChar (c : Char) : Bool :=
  decide (48 ≤ c.toNat) && decide (c.toNat ≤ 57)

/-- Model of `std::stoul` on the identifier strings of this code path: a
non-empty all-digit string (which is what `std::to_string` produced in
`IssueQuery`) parses as decimal; on any other string this model fails,
standing for the exception `std::stoul` would throw. -/
def stoulModel (s : String) : Option Nat :=
  let cs := s.toList
  if !cs.isEmpty && cs.all isDigitChar then
    some (cs.foldl (fun n c => n * 10 + (c.toNat - 48)) 0)
  else none

/-- Model of one pass of the drain loop of `SystemUnderTest::FinishQuery`
over a bulk-dequeued list of resolved futures (system_under_test.cpp:61-79):
an error-flagged response is logged and nothing is reported for it;
otherwise the identifier is parsed with `std::stoul` (see `stoulModel`) and
exactly one `QuerySamplesComplete` report is emitted with the response's
identifier, the first output's data pointer and its byte size (the code
asserts there is exactly one output; its `outputs[0]` is modelled by
`headD`). -/
def finishQueryDrain : List ClientResponse → List SutEvent
  | [] => []
  | r :: rest =>
    (if r.isError then [SutEvent.logError]
     else
       match stoulModel r.id with
       | some n =>
         [SutEvent.complete n (r.outputs.headD default).data
           (r.outputs.headD default).size]
       | none => [SutEvent.stoulFailure]) ++ finishQueryDrain rest

/-- Recognizer for report events. -/
def isComplete : SutEvent → Bool
  | SutEvent.complete _ _ _ => true
  | _ => false

theorem finishQueryDrain_cons_error (r : ClientResponse)
    (rest : List ClientResponse) (h : r.isError = true) :
    finishQueryDrain (r :: rest) = SutEvent.logError :: finishQueryDrain rest := by
  simp [finishQueryDrain, h]

theorem finishQueryDrain_cons_ok (r : ClientResponse)
    (rest : List ClientResponse) (h : r.isError = false) (n : Nat)
    (hn : stoulModel r.id = some n) :
    finishQueryDrain (r :: rest) =
      SutEvent.complete n (r.outputs.headD default).data
        (r.outputs.headD default).size :: finishQueryDrain rest := by
  simp [finishQueryDrain, h, hn]

/-- C9: the drain loop of the Completion Adapter. Under the guarantee that
every non-error response carries a parseable identifier (as the ids assigned
in `IssueQuery` are), one drain pass over a bulk-dequeued list of resolved
futures (i) emits exactly as many reports as there are non-error responses
and exactly as many error logs as there are error-flagged responses — an
error is logged and never reported; (ii) every report traces back to a
non-error response and carries its identifier, data pointer and byte size;
(iii) every non-error response is reported; and (iv) one event is produced
per dequeued item, so the loop never stops early on a failed item. -/
theorem finishQuery_error_logged_success_reported (rs : List ClientResponse)
    (hids : ∀ r ∈ rs, r.isError = false → (stoulModel r.id).isSome) :
    ((finishQueryDrain rs).countP isComplete =
      (rs.filter (fun r => !r.isError)).length) ∧
    ((finishQueryDrain rs).count SutEvent.logError =
      (rs.filter (fun r => r.isError)).length) ∧
    (∀ n d s, SutEvent.complete n d s ∈ finishQueryDrain rs →
      ∃ r ∈ rs, r.isError = false ∧ stoulModel r.id = some n ∧
        (r.outputs.headD default).data = d ∧ (r.outputs.headD default).size = s) ∧
    (∀ r ∈ rs, r.isError = false → ∀ n, stoulModel r.id = some n →
      SutEvent.complete n (r.outputs.headD default).data
        (r.outputs.headD default).size ∈ finishQueryDrain rs) ∧
    ((finishQueryDrain rs).length = rs.length) := by
  induction rs with
  | nil => exact ⟨rfl, rfl, by simp [finishQueryDrain], by simp, rfl⟩
  | cons r rest ih =>
    have hr : r.isError = false → (stoulModel r.id).isSome :=
      fun hf => hids r (List.mem_cons_self r rest) hf
    have hrest : ∀ x ∈ rest, x.isError = false → (stoulModel x.id).isSome :=
      fun x hx hf => hids x (List.mem_cons_of_mem r hx) hf
    obtain ⟨ih1, ih2, ih3, ih4, ih5⟩ := ih hrest
    cases herr : r.isError with
    | true =>
      rw [finishQueryDrain_cons_error r rest herr]
      refine ⟨?_, ?_, ?_, ?_, ?_⟩
      · rw [List.countP_cons, List.filter_cons]
        simp [isComplete, herr, ih1]
      · rw [List.count_cons, List.filter_cons]
        simp [herr, ih2]
      · intro n d s hmem
        rcases List.mem_cons.mp hmem with hmem | hmem
        · exact absurd hmem (by intro hcon; cases hcon)
        · obtain ⟨x, hx1, hx2⟩ := ih3 n d s hmem
          exact ⟨x, List.mem_cons_of_mem r hx1, hx2⟩
      · intro x hx hf n hn
        rcases List.mem_cons.mp hx with hx | hx
        · subst hx
          rw [hf] at herr
          cases herr
        · exact List.mem_cons_of_mem _ (ih4 x hx hf n hn)
      · simp [ih5]
    | false =>
      obtain ⟨n0, hn0⟩ := Option.isSome_iff_exists.mp (hr herr)
      rw [finishQueryDrain_cons_ok r rest herr n0 hn0]
      refine ⟨?_, ?_, ?_, ?_, ?_⟩
      · rw [List.countP_cons, List.filter_cons]
        simp [isComplete, herr, ih1]
      · rw [List.count_cons, List.filter_cons]
        simp [herr, ih2]
      · intro n d s hmem
        rcases List.mem_cons.mp hmem with hmem | hmem
        · refine ⟨r, List.mem_cons_self r rest, herr, ?_⟩
          injection hmem with e1 e2 e3
          exact ⟨by rw [hn0, e1], e2.symm, e3.symm⟩
        · obtain ⟨x, hx1, hx2⟩ := ih3 n d s hmem
          exact ⟨x, List.mem_cons_of_mem r hx1, hx2⟩
      · intro x hx hf n hn
        rcases List.mem_cons.mp hx with hx | hx
        · subst hx
          rw [hn0] at hn
          injection hn with hn
          subst hn
          exact List.mem_cons_self _ _
        · exact List.mem_cons_of_mem _ (ih4 x hx hf n hn)
      · simp [ih5]

/-- Witness for `finishQuery_error_logged_success_reported` on a concrete
drain pass with one error-flagged and one successful response: one report,
one log line. -/
theorem finishQuery_witness :
    ((finishQueryDrain [⟨true, "7", [⟨100, 4⟩]⟩, ⟨false, "8", [⟨200, 4⟩]⟩]).countP
        isComplete =
      (([⟨true, "7", [⟨100, 4⟩]⟩, ⟨false, "8", [⟨200, 4⟩]⟩] :
          List ClientResponse).filter (fun r => !r.isError)).length) ∧
    ((finishQueryDrain [⟨true, "7", [⟨100, 4⟩]⟩, ⟨false, "8", [⟨200, 4⟩]⟩]).count
        SutEvent.logError =
      (([⟨true, "7", [⟨100, 4⟩]⟩, ⟨false, "8", [⟨200, 4⟩]⟩] :
          List ClientResponse).filter (fun r => r.isError)).length) := by
  have h := finishQuery_error_logged_success_reported
    [⟨true, "7", [⟨100, 4⟩]⟩, ⟨false, "8", [⟨200, 4⟩]⟩]
    (by
      intro r hr hf
      fin_cases hr
      · cases hf
      · decide)
  exact ⟨h.1, h.2.1⟩

end InferenceServer
